import Mathlib

/-!
Shallow embedding of `scraper/utils.py`: the dispatcher `str_to_etree`, the
JSON mapper `json_to_etree`, and the stack-based markup tree builder
`EtreeHTMLParser` (handle_starttag / handle_endtag / handle_data / parse).

Python `ElementTree.Element` nodes are mutable and shared between the open-tag
stack and the tree under construction, so the builder is embedded with an
explicit arena: nodes live in a list, the stack and `cur_tag` hold indices,
and children are stored as index lists.  The final tree is materialized from
the arena at the end of the event stream, mirroring `parse` returning
`self.cur_tag`.

External collaborators (the `json.loads` decoder and the `html.parser`
tokenizer) are parameters: the embedding models the module's own code, which
consumes their results (a decoded JSON value, respectively a stream of
start-tag / end-tag / text events).
-/

namespace Scraper

/-- Decoded JSON values, the closed set of shapes `json.loads` can return
(numbers modelled as integers). -/
inductive JsonValue : Type where
  | null
  | bool (b : Bool)
  | num (n : Int)
  | str (s : String)
  | arr (items : List JsonValue)
  | obj (entries : List (String × JsonValue))

/-- An `ElementTree.Element` value: tag, attributes, text, tail, ordered
children. -/
inductive Element : Type where
  | mk (tag : String) (attrib : List (String × String)) (text : Option String)
      (tail : Option String) (children : List Element)

def Element.tag : Element → String
  | .mk t _ _ _ _ => t

def Element.attrib : Element → List (String × String)
  | .mk _ a _ _ _ => a

def Element.text : Element → Option String
  | .mk _ _ x _ _ => x

def Element.tail : Element → Option String
  | .mk _ _ _ tl _ => tl

def Element.children : Element → List Element
  | .mk _ _ _ _ cs => cs

/-- Python `str()` of a boolean. -/
def pyBoolStr (b : Bool) : String := if b then "True" else "False"

/-- The whitespace characters stripped by Python `str.strip()` (ASCII part). -/
def isPySpace (c : Char) : Bool :=
  c == ' ' || c == '\t' || c == '\n' || c == '\r' || c == '\x0b' || c == '\x0c'

/-- Python `str.strip()`: drop leading and trailing whitespace. -/
def pyStrip (s : String) : String :=
  String.mk (((s.data.dropWhile isPySpace).reverse.dropWhile isPySpace).reverse)

/-- Python `str.startswith(c)` for a single-character pattern. -/
def startsWithChar (s : String) (c : Char) : Bool :=
  match s.data with
  | [] => false
  | c0 :: _ => c0 == c

mutual

/-- `json_to_etree(json_obj, tag="root")` from `scraper/utils.py`:
list elements become children named `"i" + str(i)`, dict entries children
named by their key, non-None scalars set `text = str(json_obj)`. -/
def json_to_etree : JsonValue → String → Element
  | .null, tag => .mk tag [] none none []
  | .bool b, tag => .mk tag [] (some (pyBoolStr b)) none []
  | .num n, tag => .mk tag [] (some (toString n)) none []
  | .str s, tag => .mk tag [] (some s) none []
  | .arr items, tag => .mk tag [] none none (jsonChildrenArr items 0)
  | .obj entries, tag => .mk tag [] none none (jsonChildrenObj entries)

/-- The `for i, item in enumerate(json_obj)` loop of `json_to_etree`,
starting at index `i`. -/
def jsonChildrenArr : List JsonValue → Nat → List Element
  | [], _ => []
  | item :: rest, i => json_to_etree item ("i" ++ toString i) :: jsonChildrenArr rest (i + 1)

/-- The `for k, v in json_obj.items()` loop of `json_to_etree`. -/
def jsonChildrenObj : List (String × JsonValue) → List Element
  | [] => []
  | kv :: rest => json_to_etree kv.2 kv.1 :: jsonChildrenObj rest

end

mutual

/-- All nodes of a tree: the root and, recursively, all nodes of the
children. -/
def Element.allElems : Element → List Element
  | .mk t a x tl cs => .mk t a x tl cs :: allElemsList cs

def allElemsList : List Element → List Element
  | [] => []
  | c :: cs => c.allElems ++ allElemsList cs

end

/-- A node of the arena backing the markup builder: like `Element`, but
children are arena indices, since Python nodes are shared mutable
references. -/
structure ENode where
  tag : String
  attrib : List (String × String)
  text : Option String
  tail : Option String
  children : List Nat
deriving Repr, DecidableEq

/-- The three event kinds the `html.parser` tokenizer feeds to the builder. -/
inductive HtmlEvent : Type where
  | starttag (tag : String) (attrs : List (String × Option String))
  | endtag (tag : String)
  | data (d : String)
deriving Repr, DecidableEq

/-- The mutable state of `EtreeHTMLParser`: `tag_stack` (head = Python
`tag_stack[-1]`, the top), `cur_tag`, `after_end`, plus the arena holding the
nodes built so far. -/
structure ParserState where
  arena : List ENode
  tag_stack : List Nat
  cur_tag : Option Nat
  after_end : Bool
deriving Repr, DecidableEq

/-- `item.tag` for an arena index. -/
def arenaTag (arena : List ENode) (i : Nat) : String :=
  match arena.get? i with
  | some nd => nd.tag
  | none => ""

/-- `self.tag_stack[-1].append(self.cur_tag)`: record a new child index on a
node. -/
def arenaAppendChild (arena : List ENode) (parent child : Nat) : List ENode :=
  match arena.get? parent with
  | some nd => arena.set parent { nd with children := nd.children ++ [child] }
  | none => arena

/-- `self.cur_tag.text = ...`. -/
def arenaSetText (arena : List ENode) (i : Nat) (t : String) : List ENode :=
  match arena.get? i with
  | some nd => arena.set i { nd with text := some t }
  | none => arena

/-- `self.cur_tag.tail = ...`. -/
def arenaSetTail (arena : List ENode) (i : Nat) (t : String) : List ENode :=
  match arena.get? i with
  | some nd => arena.set i { nd with tail := some t }
  | none => arena

/-- `EtreeHTMLParser.handle_starttag`: clear `after_end`, create the node
(attribute values `v or ""`), append it to the stack top's children when the
stack is non-empty, push it, make it current. -/
def handle_starttag (s : ParserState) (tag : String)
    (attrs : List (String × Option String)) : ParserState :=
  let idx := s.arena.length
  let node : ENode :=
    { tag := tag, attrib := attrs.map (fun kv => (kv.1, kv.2.getD "")),
      text := none, tail := none, children := [] }
  let arena := s.arena ++ [node]
  let arena :=
    match s.tag_stack with
    | [] => arena
    | top :: _ => arenaAppendChild arena top idx
  { arena := arena, tag_stack := idx :: s.tag_stack, cur_tag := some idx,
    after_end := false }

/-- The `while any(item.tag == tag for item in self.tag_stack)` loop of
`handle_endtag`: on each pop set `after_end` and `cur_tag`, stop when the
popped node's tag matches. -/
def endtagLoop (arena : List ENode) (tag : String) :
    List Nat → Option Nat → Bool → List Nat × Option Nat × Bool
  | [], cur, ae => ([], cur, ae)
  | top :: rest, cur, ae =>
    if (top :: rest).any (fun i => arenaTag arena i == tag) then
      if arenaTag arena top == tag then
        (rest, some top, true)
      else
        endtagLoop arena tag rest (some top) true
    else
      (top :: rest, cur, ae)

/-- `EtreeHTMLParser.handle_endtag`. -/
def handle_endtag (s : ParserState) (tag : String) : ParserState :=
  match endtagLoop s.arena tag s.tag_stack s.cur_tag s.after_end with
  | (stack, cur, ae) => { s with tag_stack := stack, cur_tag := cur, after_end := ae }

/-- `EtreeHTMLParser.handle_data`: ignored while `cur_tag` is unset,
otherwise the stripped data goes to `tail` when `after_end` holds and to
`text` otherwise. -/
def handle_data (s : ParserState) (d : String) : ParserState :=
  match s.cur_tag with
  | none => s
  | some i =>
    if s.after_end then { s with arena := arenaSetTail s.arena i (pyStrip d) }
    else { s with arena := arenaSetText s.arena i (pyStrip d) }

/-- Dispatch one tokenizer event to its handler. -/
def handleEvent (s : ParserState) : HtmlEvent → ParserState
  | .starttag tag attrs => handle_starttag s tag attrs
  | .endtag tag => handle_endtag s tag
  | .data d => handle_data s d

/-- The state of a freshly constructed `EtreeHTMLParser`. -/
def initState : ParserState :=
  { arena := [], tag_stack := [], cur_tag := none, after_end := false }

/-- `self.feed(html)`: process the whole event stream in order. -/
def run_events (events : List HtmlEvent) : ParserState :=
  events.foldl handleEvent initState

/-- Materialize an arena index as an `Element` tree.  Children always have
larger indices than their parent, so `arena.length + 1` fuel suffices. -/
def toElement (arena : List ENode) : Nat → Nat → Option Element
  | 0, _ => none
  | fuel + 1, i =>
    match arena.get? i with
    | some nd =>
        some (.mk nd.tag nd.attrib nd.text nd.tail
          (nd.children.filterMap (toElement arena fuel)))
    | none => none

/-- `EtreeHTMLParser.parse`: feed all events, then return `self.cur_tag`. -/
def parse (events : List HtmlEvent) : Option Element :=
  let s := run_events events
  s.cur_tag.bind (toElement s.arena (s.arena.length + 1))

/-- `html_to_etree`, with the tokenizer as a parameter. -/
def html_to_etree (tokenize : String → List HtmlEvent) (s : String) : Option Element :=
  parse (tokenize s)

/-- The two exception kinds that can escape `str_to_etree`:
`json.JSONDecodeError` from the uncaught `json.loads`, and the module's
`ResultParseError` raised by `EtreeHTMLParser.error`. -/
inductive PyErr where
  | jsonDecodeError
  | resultParseError
deriving Repr, DecidableEq

/-- `str_to_etree` from `scraper/utils.py`, with the external `json.loads`
decoder and the markup tokenizer as parameters: strip, dispatch on the first
character; a failing decode propagates as `json.JSONDecodeError`. -/
def str_to_etree (decodeJson : String → Except Unit JsonValue)
    (tokenize : String → List HtmlEvent) (s : String) :
    Except PyErr (Option Element) :=
  let t := pyStrip s
  if startsWithChar t '\x7b' || startsWithChar t '[' then
    match decodeJson t with
    | .ok v => .ok (some (json_to_etree v "root"))
    | .error _ => .error .jsonDecodeError
  else if startsWithChar t '<' then
    .ok (html_to_etree tokenize t)
  else
    .ok none

/-! ## Helper lemmas -/

theorem json_to_etree_tag (j : JsonValue) (t : String) : (json_to_etree j t).tag = t := by
  cases j <;> simp [json_to_etree, Element.tag]

theorem jsonChildrenArr_length (items : List JsonValue) (k : Nat) :
    (jsonChildrenArr items k).length = items.length := by
  induction items generalizing k with
  | nil => simp [jsonChildrenArr]
  | cons x xs ih => simp [jsonChildrenArr, ih]

theorem jsonChildrenArr_get (items : List JsonValue) (k i : Nat) :
    (jsonChildrenArr items k)[i]?
      = (items[i]?).map (fun v => json_to_etree v ("i" ++ toString (k + i))) := by
  induction items generalizing k i with
  | nil => simp [jsonChildrenArr]
  | cons x xs ih =>
    cases i with
    | zero => simp [jsonChildrenArr]
    | succ j =>
      have harith : k + 1 + j = k + (j + 1) := by omega
      simp [jsonChildrenArr, ih (k + 1) j, harith]

theorem mem_allElemsList_iff (e : Element) (cs : List Element) :
    e ∈ allElemsList cs ↔ ∃ c ∈ cs, e ∈ c.allElems := by
  induction cs with
  | nil => simp [allElemsList]
  | cons c cs ih => simp [allElemsList, ih]

theorem jsonChildrenArr_mem {c : Element} (items : List JsonValue) (k : Nat)
    (h : c ∈ jsonChildrenArr items k) :
    ∃ item ∈ items, ∃ nm, c = json_to_etree item nm := by
  induction items generalizing k with
  | nil => simp [jsonChildrenArr] at h
  | cons x xs ih =>
    simp only [jsonChildrenArr, List.mem_cons] at h
    rcases h with h | h
    · exact ⟨x, by simp, _, h⟩
    · rcases ih (k + 1) h with ⟨item, hm, nm, hc⟩
      exact ⟨item, by simp [hm], nm, hc⟩

theorem jsonChildrenObj_mem {c : Element} (entries : List (String × JsonValue))
    (h : c ∈ jsonChildrenObj entries) :
    ∃ kv ∈ entries, c = json_to_etree kv.2 kv.1 := by
  induction entries with
  | nil => simp [jsonChildrenObj] at h
  | cons kv rest ih =>
    simp only [jsonChildrenObj, List.mem_cons] at h
    rcases h with h | h
    · exact ⟨kv, by simp, h⟩
    · rcases ih h with ⟨kv2, hm, hc⟩
      exact ⟨kv2, by simp [hm], hc⟩

/-- Every node of a JSON-derived tree has at most one of text and children,
by strong induction on the size of the JSON value. -/
theorem json_atMostOne_aux :
    ∀ (n : Nat) (j : JsonValue), sizeOf j ≤ n → ∀ (t : String),
      ∀ e ∈ (json_to_etree j t).allElems,
        ¬(e.text.isSome = true ∧ e.children ≠ []) := by
  intro n
  induction n with
  | zero =>
    intro j hj
    exfalso
    cases j <;> simp at hj
  | succ n ih =>
    intro j hj t e he
    cases j with
    | null =>
      simp [json_to_etree, Element.allElems, allElemsList] at he
      subst he
      simp [Element.text, Element.children]
    | bool b =>
      simp [json_to_etree, Element.allElems, allElemsList] at he
      subst he
      simp [Element.text, Element.children]
    | num m =>
      simp [json_to_etree, Element.allElems, allElemsList] at he
      subst he
      simp [Element.text, Element.children]
    | str s2 =>
      simp [json_to_etree, Element.allElems, allElemsList] at he
      subst he
      simp [Element.text, Element.children]
    | arr items =>
      simp only [json_to_etree, Element.allElems, List.mem_cons] at he
      rcases he with he | he
      · subst he
        simp [Element.text]
      · rcases (mem_allElemsList_iff e _).mp he with ⟨c, hc, hce⟩
        rcases jsonChildrenArr_mem items 0 hc with ⟨item, hitem, nm, rfl⟩
        have h1 : sizeOf item < sizeOf items := List.sizeOf_lt_of_mem hitem
        have h2 : sizeOf (JsonValue.arr items) = 1 + sizeOf items := by simp
        exact ih item (by omega) nm e hce
    | obj entries =>
      simp only [json_to_etree, Element.allElems, List.mem_cons] at he
      rcases he with he | he
      · subst he
        simp [Element.text]
      · rcases (mem_allElemsList_iff e _).mp he with ⟨c, hc, hce⟩
        rcases jsonChildrenObj_mem entries hc with ⟨kv, hkv, rfl⟩
        have h1 : sizeOf kv < sizeOf entries := List.sizeOf_lt_of_mem hkv
        have h2 : sizeOf kv = 1 + sizeOf kv.1 + sizeOf kv.2 := rfl
        have h3 : sizeOf (JsonValue.obj entries) = 1 + sizeOf entries := by simp
        exact ih kv.2 (by omega) kv.1 e hce

theorem arenaSetText_twice (a : List ENode) (i : Nat) (t1 t2 : String) :
    arenaSetText (arenaSetText a i t1) i t2 = arenaSetText a i t2 := by
  unfold arenaSetText
  cases h : a[i]? with
  | none => simp [List.get?_eq_getElem?, h]
  | some nd =>
    have hlen : i < a.length := by
      rcases List.getElem?_eq_some.mp h with ⟨hl, _⟩
      exact hl
    have h2 : (a.set i { nd with text := some t1 })[i]?
        = some { nd with text := some t1 } := by
      simp [List.getElem?_set_self, hlen]
    simp [List.get?_eq_getElem?, h, h2, List.set_set]

theorem arenaSetTail_twice (a : List ENode) (i : Nat) (t1 t2 : String) :
    arenaSetTail (arenaSetTail a i t1) i t2 = arenaSetTail a i t2 := by
  unfold arenaSetTail
  cases h : a[i]? with
  | none => simp [List.get?_eq_getElem?, h]
  | some nd =>
    have hlen : i < a.length := by
      rcases List.getElem?_eq_some.mp h with ⟨hl, _⟩
      exact hl
    have h2 : (a.set i { nd with tail := some t1 })[i]?
        = some { nd with tail := some t1 } := by
      simp [List.getElem?_set_self, hlen]
    simp [List.get?_eq_getElem?, h, h2, List.set_set]

/-! ## Claims -/

/-- C1: for the event stream of `<a><b></a>` (unclosed `b`), the end tag for
`a` pops both `b` and `a` from the open-tag stack, `b` stays a child of `a`,
and the returned root is the node named `a`. -/
theorem c1_autoclose_unclosed_child :
    (run_events [HtmlEvent.starttag "a" [], HtmlEvent.starttag "b" []]).tag_stack = [1, 0]
    ∧ (run_events [HtmlEvent.starttag "a" [], HtmlEvent.starttag "b" [],
        HtmlEvent.endtag "a"]).tag_stack = []
    ∧ parse [HtmlEvent.starttag "a" [], HtmlEvent.starttag "b" [], HtmlEvent.endtag "a"]
        = some (Element.mk "a" [] none none [Element.mk "b" [] none none []]) :=
  ⟨rfl, rfl, rfl⟩

/-- C3: when the stripped input starts with none of the characters `{`, `[`,
`<` (including the empty and whitespace-only string), `str_to_etree` returns
`None` and raises no error. -/
theorem c3_unrecognized_returns_none (dec : String → Except Unit JsonValue)
    (tok : String → List HtmlEvent) (s : String)
    (h1 : startsWithChar (pyStrip s) '\x7b' = false)
    (h2 : startsWithChar (pyStrip s) '[' = false)
    (h3 : startsWithChar (pyStrip s) '<' = false) :
    str_to_etree dec tok s = .ok none := by
  unfold str_to_etree
  simp [h1, h2, h3]

theorem c3_witness :
    startsWithChar (pyStrip "  ") '\x7b' = false
    ∧ startsWithChar (pyStrip "  ") '[' = false
    ∧ startsWithChar (pyStrip "  ") '<' = false
    ∧ str_to_etree (fun _ => .error ()) (fun _ => []) "  " = .ok none :=
  ⟨rfl, rfl, rfl, c3_unrecognized_returns_none (fun _ => .error ()) (fun _ => []) "  " rfl rfl rfl⟩

/-- C4 counterexample: on `"{bad json"` the uncaught `json.loads` failure
surfaces as `json.JSONDecodeError`, which is not the module's
`ResultParseError` (the spec's `InputParseError` kind). -/
theorem c4_counterexample :
    str_to_etree (fun _ => .error ()) (fun _ => []) "\x7bbad json"
      = .error .jsonDecodeError
    ∧ str_to_etree (fun _ => .error ()) (fun _ => []) "\x7bbad json"
      ≠ .error .resultParseError :=
  ⟨rfl, by
    intro hco
    have h2 : (Except.error PyErr.jsonDecodeError : Except PyErr (Option Element))
        = Except.error PyErr.resultParseError := hco
    simp at h2⟩

/-- C4 (amended): when the stripped input starts with `{` or `[` and JSON
decoding fails, `str_to_etree` fails by propagating the decoder's own
`json.JSONDecodeError`; the module's `ResultParseError` is not involved. -/
theorem c4_bad_json_raises_decode_error (dec : String → Except Unit JsonValue)
    (tok : String → List HtmlEvent) (s : String)
    (h : startsWithChar (pyStrip s) '\x7b' = true ∨ startsWithChar (pyStrip s) '[' = true)
    (e : Unit) (hd : dec (pyStrip s) = .error e) :
    str_to_etree dec tok s = .error .jsonDecodeError := by
  unfold str_to_etree
  rcases h with h | h <;> simp [h, hd]

theorem c4_bad_json_witness :
    (startsWithChar (pyStrip "\x7bbad json") '\x7b' = true
      ∨ startsWithChar (pyStrip "\x7bbad json") '[' = true)
    ∧ str_to_etree (fun _ => .error ()) (fun _ => []) "\x7bbad json"
        = .error .jsonDecodeError :=
  ⟨Or.inl rfl,
    c4_bad_json_raises_decode_error (fun _ => .error ()) (fun _ => []) "\x7bbad json"
      (Or.inl rfl) () rfl⟩

/-- C9: scalar JSON values map to leaves named by the parameter with `text`
the Python `str()` form (`True`/`False` for booleans, decimal for numbers,
the string itself); `null` maps to a node with no text and no children. -/
theorem c9_scalar_mapping :
    (∀ (n : String), json_to_etree .null n = Element.mk n [] none none [])
    ∧ (∀ (b : Bool) (n : String),
        json_to_etree (.bool b) n = Element.mk n [] (some (pyBoolStr b)) none [])
    ∧ (∀ (i : Int) (n : String),
        json_to_etree (.num i) n = Element.mk n [] (some (toString i)) none [])
    ∧ (∀ (s n : String),
        json_to_etree (.str s) n = Element.mk n [] (some s) none []) := by
  refine ⟨fun n => ?_, fun b n => ?_, fun i n => ?_, fun s n => ?_⟩ <;>
    simp [json_to_etree]

/-- C2: mapping a JSON array `[v0, ..., vn]` with root name `r` yields a node
named `r` with one child per element, the `i`-th child named `"i" + str(i)`
and equal to the recursive mapping of `v_i` under that name. -/
theorem c2_array_mapping (items : List JsonValue) (r : String) :
    (json_to_etree (.arr items) r).tag = r
    ∧ (json_to_etree (.arr items) r).children.length = items.length
    ∧ (∀ i : Nat, ((json_to_etree (.arr items) r).children[i]?).map Element.tag
        = (items[i]?).map (fun _ => "i" ++ toString i))
    ∧ (∀ i : Nat, (json_to_etree (.arr items) r).children[i]?
        = (items[i]?).map (fun v => json_to_etree v ("i" ++ toString i))) := by
  have hch : (json_to_etree (.arr items) r).children = jsonChildrenArr items 0 := by
    simp [json_to_etree, Element.children]
  refine ⟨json_to_etree_tag _ _, ?_, ?_, ?_⟩
  · rw [hch, jsonChildrenArr_length]
  · intro i
    rw [hch, jsonChildrenArr_get]
    cases items[i]? <;> simp [json_to_etree_tag]
  · intro i
    rw [hch, jsonChildrenArr_get]
    simp

/-- C6: `handle_data` discards the data when `cur_tag` is unset; otherwise
the stripped data becomes the tail of the current node when `after_end`
holds, and its text when it does not. -/
theorem c6_handle_data (s : ParserState) (d : String) :
    (s.cur_tag = none → handle_data s d = s)
    ∧ (∀ i, s.cur_tag = some i → s.after_end = true →
        handle_data s d = { s with arena := arenaSetTail s.arena i (pyStrip d) })
    ∧ (∀ i, s.cur_tag = some i → s.after_end = false →
        handle_data s d = { s with arena := arenaSetText s.arena i (pyStrip d) }) := by
  constructor
  · intro h
    simp [handle_data, h]
  constructor
  · intro i h hae
    simp [handle_data, h, hae]
  · intro i h hae
    simp [handle_data, h, hae]

theorem c6_witness :
    handle_data initState "y" = initState
    ∧ handle_data (run_events [HtmlEvent.starttag "a" []]) " y "
        = { run_events [HtmlEvent.starttag "a" []] with
            arena := arenaSetText (run_events [HtmlEvent.starttag "a" []]).arena 0
              (pyStrip " y ") } :=
  ⟨(c6_handle_data initState "y").1 rfl,
   (c6_handle_data (run_events [HtmlEvent.starttag "a" []]) " y ").2.2 0 rfl rfl⟩

/-- C7: an end tag whose name matches no node on the open-tag stack is a
complete no-op (stack, current, after-end flag all unchanged, no error); as
the only event, current stays unset and the root is `None`. -/
theorem c7_unmatched_endtag_noop (s : ParserState) (name : String)
    (h : ∀ i ∈ s.tag_stack, arenaTag s.arena i ≠ name) :
    handle_endtag s name = s
    ∧ parse [HtmlEvent.endtag "x"] = none
    ∧ (run_events [HtmlEvent.endtag "x"]).cur_tag = none := by
  refine ⟨?_, rfl, rfl⟩
  unfold handle_endtag
  have hl : endtagLoop s.arena name s.tag_stack s.cur_tag s.after_end
      = (s.tag_stack, s.cur_tag, s.after_end) := by
    cases hst : s.tag_stack with
    | nil => simp [endtagLoop]
    | cons top rest =>
      have hany : ((top :: rest).any (fun i => arenaTag s.arena i == name)) = false := by
        simp only [List.any_eq_false]
        intro i hi
        simpa using h i (by rw [hst]; exact hi)
      simp [endtagLoop, hany]
  rw [hl]

theorem c7_witness :
    handle_endtag (run_events [HtmlEvent.starttag "a" []]) "x"
      = run_events [HtmlEvent.starttag "a" []] :=
  (c7_unmatched_endtag_noop (run_events [HtmlEvent.starttag "a" []]) "x" (by decide)).1

/-- C8: after the event stream ends, `parse` returns the materialization of
`cur_tag`, the last node touched; for `<a></a><b></b>` the returned root is
the most recently touched top-level node `b`, not the first one `a`. -/
theorem c8_root_is_current :
    (∀ events : List HtmlEvent,
      parse events = (run_events events).cur_tag.bind
        (toElement (run_events events).arena ((run_events events).arena.length + 1)))
    ∧ (parse [HtmlEvent.starttag "a" [], HtmlEvent.endtag "a",
        HtmlEvent.starttag "b" [], HtmlEvent.endtag "b"]).map Element.tag = some "b"
    ∧ (parse [HtmlEvent.starttag "a" [], HtmlEvent.endtag "a",
        HtmlEvent.starttag "b" [], HtmlEvent.endtag "b"]).map Element.tag ≠ some "a" := by
  refine ⟨fun events => rfl, rfl, ?_⟩
  intro hco
  have h2 : (some "b" : Option String) = some "a" := hco
  simp at h2

/-- C5 counterexample: the node built for JSON `null` has neither text set
nor a non-empty child list, so "exactly one of {text set, children
non-empty}" fails on it. -/
theorem c5_counterexample :
    (json_to_etree JsonValue.null "root").text = none
    ∧ (json_to_etree JsonValue.null "root").children = []
    ∧ ¬(((json_to_etree JsonValue.null "root").text.isSome = true
          ∧ ¬(json_to_etree JsonValue.null "root").children ≠ [])
        ∨ (¬(json_to_etree JsonValue.null "root").text.isSome = true
          ∧ (json_to_etree JsonValue.null "root").children ≠ [])) := by
  refine ⟨rfl, rfl, ?_⟩
  simp [json_to_etree, Element.text, Element.children]

/-- C5 (amended): every node of a JSON-derived tree satisfies at most one of
{text set, children non-empty}; non-null scalars are leaves with text and no
children, arrays and objects carry no text, and `null` yields a node with
neither text nor children. -/
theorem c5_at_most_one (j : JsonValue) (t : String) :
    (∀ e ∈ (json_to_etree j t).allElems, ¬(e.text.isSome = true ∧ e.children ≠ []))
    ∧ (∀ (b : Bool) (n : String), (json_to_etree (.bool b) n).text.isSome = true
        ∧ (json_to_etree (.bool b) n).children = [])
    ∧ (∀ (m : Int) (n : String), (json_to_etree (.num m) n).text.isSome = true
        ∧ (json_to_etree (.num m) n).children = [])
    ∧ (∀ (s2 n : String), (json_to_etree (.str s2) n).text.isSome = true
        ∧ (json_to_etree (.str s2) n).children = [])
    ∧ (∀ (items : List JsonValue) (n : String),
        (json_to_etree (.arr items) n).text = none)
    ∧ (∀ (entries : List (String × JsonValue)) (n : String),
        (json_to_etree (.obj entries) n).text = none)
    ∧ ((json_to_etree .null t).text = none ∧ (json_to_etree .null t).children = []) := by
  refine ⟨json_atMostOne_aux (sizeOf j) j le_rfl t, ?_, ?_, ?_, ?_, ?_, ?_⟩
  · intro b n
    exact ⟨by simp [json_to_etree, Element.text], by simp [json_to_etree, Element.children]⟩
  · intro m n
    exact ⟨by simp [json_to_etree, Element.text], by simp [json_to_etree, Element.children]⟩
  · intro s2 n
    exact ⟨by simp [json_to_etree, Element.text], by simp [json_to_etree, Element.children]⟩
  · intro items n
    simp [json_to_etree, Element.text]
  · intro entries n
    simp [json_to_etree, Element.text]
  · exact ⟨by simp [json_to_etree, Element.text], by simp [json_to_etree, Element.children]⟩

theorem c5_witness :
    ¬((json_to_etree JsonValue.null "root").text.isSome = true
      ∧ (json_to_etree JsonValue.null "root").children ≠ []) :=
  (c5_at_most_one JsonValue.null "root").1 (json_to_etree JsonValue.null "root")
    (by simp [json_to_etree, Element.allElems, allElemsList])

/-- C10: text assignment in `handle_data` is last-write-wins: two data events
in a row are equivalent to the last one alone, and for text split around an
ignored end tag only the last piece survives. -/
theorem c10_last_write_wins :
    (∀ (s : ParserState) (d1 d2 : String),
      handle_data (handle_data s d1) d2 = handle_data s d2)
    ∧ (parse [HtmlEvent.starttag "a" [], HtmlEvent.data "x", HtmlEvent.endtag "z",
        HtmlEvent.data "y"]).map Element.text = some (some "y")
    ∧ (parse [HtmlEvent.starttag "a" [], HtmlEvent.data "x", HtmlEvent.endtag "z",
        HtmlEvent.data "y"]).map Element.text ≠ some (some "x") := by
  refine ⟨fun s d1 d2 => ?_, rfl, ?_⟩
  · cases hc : s.cur_tag with
    | none => simp [handle_data, hc]
    | some i =>
      cases hae : s.after_end
      · simp [handle_data, hc, hae, arenaSetText_twice]
      · simp [handle_data, hc, hae, arenaSetTail_twice]
  · intro hco
    have h2 : (some (some "y") : Option (Option String)) = some (some "x") := hco
    simp at h2

end Scraper
